import Mathlib

/-!
Verification of the customer-importer pipeline (Go repository).

The development shallowly embeds the core of the repository:

* `validateEmail` (customerimporter): trims the raw value, cuts it at the
  first `@`, validates the local part and the domain part, and returns the
  trimmed domain.
* `ImportDomainData` (customerimporter): reads a header record and then the
  data records, enforcing the `encoding/csv` field-count rule (the first
  record fixes the expected number of fields for all later records),
  validates the email field at index 2, accumulates per-domain counts in a
  map, and finally sorts the aggregate by domain.
* `ExportData` (exporter): rejects a nil slice before touching the file
  system, otherwise creates the output file and writes the report rows.

Strings are modelled as `List Char`; Go's byte-wise string comparison
(`cmp.Compare`) agrees with code-point lexicographic comparison because
UTF-8 preserves code-point order, so the Mathlib lexicographic order on
`List Char` models it.  Counters are `uint64` in Go; a wrap-around would
need at least `2 ^ 64` input records, which no readable file can supply, so
counts are modelled as `Nat`.  The input source is modelled at the record
level (the sequence of records the CSV text encodes), with `none` standing
for a file that cannot be opened and `none`/`some` on the Go multi-value
returns standing for nil and non-nil slices.
-/

deriving instance DecidableEq for Except

namespace CustomerImporter

/-- Whitespace predicate of Go's `unicode.IsSpace` (the Unicode
White_Space property), used by `strings.TrimSpace`. -/
def goIsSpace (c : Char) : Bool :=
  c.toNat = 0x09 || c.toNat = 0x0A || c.toNat = 0x0B || c.toNat = 0x0C ||
  c.toNat = 0x0D || c.toNat = 0x20 || c.toNat = 0x85 || c.toNat = 0xA0 ||
  c.toNat = 0x1680 || (0x2000 ≤ c.toNat && c.toNat ≤ 0x200A) ||
  c.toNat = 0x2028 || c.toNat = 0x2029 || c.toNat = 0x202F ||
  c.toNat = 0x205F || c.toNat = 0x3000

/-- Left half of `strings.TrimSpace`: drop leading whitespace. -/
def trimLeft (s : List Char) : List Char :=
  s.dropWhile goIsSpace

/-- Right half of `strings.TrimSpace`: drop trailing whitespace. -/
def trimRight (s : List Char) : List Char :=
  (s.reverse.dropWhile goIsSpace).reverse

/-- Go's `strings.TrimSpace`: drop leading and trailing whitespace. -/
def trimSpace (s : List Char) : List Char :=
  trimRight (trimLeft s)

/-- Go's `strings.Cut(s, sep)` for a one-character separator: split around
the first occurrence of `sep`, `none` when `sep` does not occur (Go's
`found == false`). -/
def cut (sep : Char) : List Char → Option (List Char × List Char)
  | [] => none
  | c :: rest =>
    if c = sep then some ([], rest)
    else (cut sep rest).map (fun q => (c :: q.1, q.2))

/-- Failure reasons of `validateEmail`, one per `fmt.Errorf` message in the
source ("email address is empty", "missing separator", "empty local part",
"empty domain", "multiple separator symbols"). -/
inductive EmailError where
  | emptyInput : EmailError
  | missingSeparator : EmailError
  | emptyLocalPart : EmailError
  | emptyDomain : EmailError
  | multipleSeparators : EmailError
deriving DecidableEq, Repr

/-- Embedding of `validateEmail` (customerimporter): trim the raw value,
reject the empty result, cut at the first `@`, reject an empty trimmed
local part, trim the domain part, reject an empty domain, reject a domain
that still contains `@`, and otherwise return the trimmed domain. -/
def validateEmail (email : List Char) : Except EmailError (List Char) :=
  if trimSpace email = [] then .error .emptyInput
  else
    match cut '@' (trimSpace email) with
    | none => .error .missingSeparator
    | some (loc, dom0) =>
      if trimSpace loc = [] then .error .emptyLocalPart
      else if trimSpace dom0 = [] then .error .emptyDomain
      else if (trimSpace dom0).contains '@' then .error .multipleSeparators
      else .ok (trimSpace dom0)

/-- Embedding of the `DomainData` struct. -/
structure DomainData where
  Domain : List Char
  CustomerQuantity : Nat
deriving DecidableEq, Repr

/-- The CSV column index of the email field (`emailColumnIndex = 2`). -/
def emailColumnIndex : Nat := 2

/-- Error taxonomy of `ImportDomainData`: the `os.Open` failure, the failed
header read (`io.EOF` included), the `encoding/csv` wrong-number-of-fields
error, the "invalid CSV format: expected at least %d columns, got %d"
error, and the "invalid email in CSV" wrapper around `validateEmail`. -/
inductive ImportError where
  | sourceUnavailable : ImportError
  | emptyOrUnreadableSource : ImportError
  | fieldCountMismatch (expected got : Nat) : ImportError
  | insufficientColumns (expectedMin got : Nat) : ImportError
  | invalidEmail (reason : EmailError) : ImportError
deriving DecidableEq, Repr

/-- Bool test for the `insufficientColumns` kind of `ImportError`. -/
def ImportError.isInsufficientColumns : ImportError → Bool
  | .insufficientColumns _ _ => true
  | _ => false

/-- One step of the accumulation map update `data[domain] += 1`: increment
the entry of key `k`, inserting it with count 1 when absent. -/
def bump : List (List Char × Nat) → List Char → List (List Char × Nat)
  | [], k => [(k, 1)]
  | (k', v) :: rest, k =>
    if k' = k then (k', v + 1) :: rest else (k', v) :: bump rest k

/-- The read loop of `ImportDomainData` over the data records.  The
`encoding/csv` reader was created with the default `FieldsPerRecord`, so
the header's field count `expected` is enforced on every later record (a
mismatch is the reader's `ErrFieldCount`, surfaced before the body runs);
a record that passes that check but has at most `emailColumnIndex` fields
hits the explicit bounds check; otherwise the email field is validated and
the domain counter bumped. -/
def importLoop (expected : Nat) :
    List (List Char × Nat) → List (List (List Char)) →
      Except ImportError (List (List Char × Nat))
  | m, [] => .ok m
  | m, line :: rest =>
    if line.length ≠ expected then
      .error (.fieldCountMismatch expected line.length)
    else if line.length ≤ emailColumnIndex then
      .error (.insufficientColumns (emailColumnIndex + 1) line.length)
    else
      match validateEmail (line.getD emailColumnIndex []) with
      | .error e => .error (.invalidEmail e)
      | .ok dom => importLoop expected (bump m dom) rest

/-- Ascending comparison used by the final `slices.SortFunc`:
`cmp.Compare` of the domain strings (byte-wise in Go, which coincides with
code-point lexicographic order under UTF-8). -/
def domLe (a b : DomainData) : Prop := a.Domain ≤ b.Domain

/-- Strict version of `domLe`. -/
def domLt (a b : DomainData) : Prop := a.Domain < b.Domain

instance : DecidableRel domLe :=
  fun a b => inferInstanceAs (Decidable (a.Domain ≤ b.Domain))

instance : DecidableRel domLt :=
  fun a b => inferInstanceAs (Decidable (a.Domain < b.Domain))

instance : IsTotal DomainData domLe := ⟨fun a b => le_total a.Domain b.Domain⟩

instance : IsTrans DomainData domLe := ⟨fun _ _ _ h1 h2 => le_trans h1 h2⟩

instance : IsAntisymm DomainData domLt :=
  ⟨fun _ _ h1 h2 => absurd h2 (lt_asymm h1)⟩

/-- Finalization step of `ImportDomainData`: turn the accumulation map
entries into `DomainData` values and sort ascending by domain.  The Go
code sorts with `slices.SortFunc`; because the map keys are pairwise
distinct, every comparison-correct sort returns the same list, so the
sort is modelled by insertion sort. -/
def finalizeEntries (entries : List (List Char × Nat)) : List DomainData :=
  List.insertionSort domLe
    (entries.map (fun q => { Domain := q.1, CustomerQuantity := q.2 }))

/-- Embedding of `ImportDomainData`, parameterized by the order `iter` in
which the `for k, v := range data` statement enumerates the accumulation
map (Go map iteration order is unspecified; `iter` is constrained to a
permutation wherever that matters).  `none` as the source models a file
`os.Open` rejects; an empty record list makes the header read fail with
`io.EOF`, a non-nil error that the code returns as is.  On success the Go
code returns a non-nil (possibly empty) slice, on every error path it
returns a nil slice: `some`/`none` in the first component model that. -/
def ImportDomainDataIter
    (iter : List (List Char × Nat) → List (List Char × Nat))
    (source : Option (List (List (List Char)))) :
    Option (List DomainData) × Option ImportError :=
  match source with
  | none => (none, some .sourceUnavailable)
  | some [] => (none, some .emptyOrUnreadableSource)
  | some (header :: rows) =>
    match importLoop header.length [] rows with
    | .error e => (none, some e)
    | .ok m => (some (finalizeEntries (iter m)), none)

/-- Embedding of `ImportDomainData` with one fixed map enumeration order. -/
def ImportDomainData :
    Option (List (List (List Char))) →
      Option (List DomainData) × Option ImportError :=
  ImportDomainDataIter id

/-- Failure reasons of `ExportData`: the nil-slice rejection
("provided data is empty (nil)") and the `os.Create` failure. -/
inductive ExportError where
  | nilData : ExportError
  | createFailed : ExportError
deriving DecidableEq, Repr

/-- Observable file-system effects of `ExportData`: creating (and thereby
truncating) the output file, and writing one CSV row to it. -/
inductive ExportEvent where
  | createFile : ExportEvent
  | writeRow (row : List (List Char)) : ExportEvent
deriving DecidableEq, Repr

/-- Base-10 rendering of a counter, Go's `strconv.FormatUint(v, 10)`. -/
def natDecimal (n : Nat) : List Char := (Nat.repr n).toList

/-- Rows written by `exportCsv`: the literal header
`domain,number_of_customers` followed by one `domain,count` row per entry,
in the order provided. -/
def exportCsvRows (data : List DomainData) : List (List (List Char)) :=
  ["domain".toList, "number_of_customers".toList] ::
    data.map (fun v => [v.Domain, natDecimal v.CustomerQuantity])

/-- Embedding of `ExportData` (exporter): a nil slice (`none`) is rejected
before any file-system access; otherwise the output file is created
(`createOk` models whether `os.Create` succeeds) and the CSV rows are
written.  The first component lists the file-system effects in order. -/
def ExportData (createOk : Bool) (data : Option (List DomainData)) :
    List ExportEvent × Option ExportError :=
  match data with
  | none => ([], some .nilData)
  | some d =>
    if createOk then
      (.createFile :: (exportCsvRows d).map .writeRow, none)
    else ([], some .createFailed)

/-! Lemmas about trimming. -/

theorem atSignNotSpace : goIsSpace '@' = false := by decide

theorem dropWhile_append_cons (p : Char → Bool) (u : List Char) {y : Char}
    (v : List Char) (hy : p y = false) :
    (u ++ y :: v).dropWhile p = u.dropWhile p ++ y :: v := by
  induction u with
  | nil => simp [List.dropWhile_cons, hy]
  | cons a u ih =>
    by_cases h : p a
    · simpa [List.dropWhile_cons, h] using ih
    · simp [List.dropWhile_cons, h]

theorem trimLeft_append_cons (u : List Char) {y : Char} (v : List Char)
    (hy : goIsSpace y = false) :
    trimLeft (u ++ y :: v) = trimLeft u ++ y :: v :=
  dropWhile_append_cons goIsSpace u v hy

theorem trimRight_append_cons (u : List Char) {y : Char} (v : List Char)
    (hy : goIsSpace y = false) :
    trimRight (u ++ y :: v) = u ++ y :: trimRight v := by
  unfold trimRight
  have hrev : (u ++ y :: v).reverse = v.reverse ++ y :: u.reverse := by
    simp
  rw [hrev, dropWhile_append_cons goIsSpace v.reverse u.reverse hy]
  simp

theorem trimSpace_append_cons (u : List Char) {y : Char} (v : List Char)
    (hy : goIsSpace y = false) :
    trimSpace (u ++ y :: v) = trimLeft u ++ y :: trimRight v := by
  unfold trimSpace
  rw [trimLeft_append_cons u v hy, trimRight_append_cons (trimLeft u) v hy]

theorem trimLeft_idem (s : List Char) : trimLeft (trimLeft s) = trimLeft s := by
  unfold trimLeft
  exact List.dropWhile_idempotent goIsSpace s

theorem trimRight_eq_rdropWhile (s : List Char) :
    trimRight s = s.rdropWhile goIsSpace := rfl

theorem trimRight_idem (s : List Char) :
    trimRight (trimRight s) = trimRight s := by
  rw [trimRight_eq_rdropWhile, trimRight_eq_rdropWhile]
  exact List.rdropWhile_idempotent goIsSpace s

theorem trimSpace_trimLeft (s : List Char) :
    trimSpace (trimLeft s) = trimSpace s := by
  unfold trimSpace
  rw [trimLeft_idem]

theorem head_of_dropWhile_eq_cons {p : Char → Bool} {l : List Char} {c : Char}
    {cs : List Char} (h : l.dropWhile p = c :: cs) : p c = false := by
  induction l with
  | nil => simp [List.dropWhile] at h
  | cons a l ih =>
    by_cases ha : p a
    · rw [List.dropWhile_cons_of_pos ha] at h
      exact ih h
    · rw [List.dropWhile_cons_of_neg ha] at h
      cases h
      simpa using ha

theorem trimRight_cons_neg {c : Char} (X : List Char) (hc : goIsSpace c = false) :
    trimRight (c :: X) = c :: trimRight X := by
  simpa using trimRight_append_cons [] X hc

theorem trimSpace_trimRight (s : List Char) :
    trimSpace (trimRight s) = trimSpace s := by
  cases h : s.dropWhile goIsSpace with
  | nil =>
    have hall : ∀ x ∈ s, goIsSpace x := List.dropWhile_eq_nil_iff.mp h
    have h1 : trimRight s = [] := by
      rw [trimRight_eq_rdropWhile]
      exact List.rdropWhile_eq_nil_iff.mpr hall
    have h2 : trimSpace s = [] := by
      unfold trimSpace trimLeft
      rw [h]
      rfl
    rw [h1, h2]
    rfl
  | cons c cs =>
    have hc : goIsSpace c = false := head_of_dropWhile_eq_cons h
    have hsp : ∀ x ∈ s.takeWhile goIsSpace, goIsSpace x :=
      fun _ hx => List.mem_takeWhile_imp hx
    have hdecomp : s.takeWhile goIsSpace ++ c :: cs = s := by
      rw [← h]
      exact List.takeWhile_append_dropWhile goIsSpace s
    have hr : trimRight s = s.takeWhile goIsSpace ++ c :: trimRight cs := by
      conv_lhs => rw [← hdecomp]
      exact trimRight_append_cons _ cs hc
    have hl : trimLeft (trimRight s) = c :: trimRight cs := by
      rw [hr]
      unfold trimLeft
      rw [List.dropWhile_append_of_pos hsp, List.dropWhile_cons_of_neg (by simp [hc])]
    calc trimSpace (trimRight s) = trimRight (c :: trimRight cs) := by
          unfold trimSpace; rw [hl]
      _ = c :: trimRight (trimRight cs) := trimRight_cons_neg _ hc
      _ = c :: trimRight cs := by rw [trimRight_idem]
      _ = trimRight (c :: cs) := (trimRight_cons_neg _ hc).symm
      _ = trimSpace s := by unfold trimSpace trimLeft; rw [h]

theorem mem_of_mem_trimLeft {c : Char} {s : List Char} (h : c ∈ trimLeft s) :
    c ∈ s :=
  (List.dropWhile_sublist goIsSpace).mem h

theorem mem_of_mem_trimRight {c : Char} {s : List Char} (h : c ∈ trimRight s) :
    c ∈ s := by
  unfold trimRight at h
  rw [List.mem_reverse] at h
  have := (List.dropWhile_sublist goIsSpace).mem h
  rwa [List.mem_reverse] at this

theorem mem_of_mem_trimSpace {c : Char} {s : List Char} (h : c ∈ trimSpace s) :
    c ∈ s :=
  mem_of_mem_trimLeft (mem_of_mem_trimRight h)

theorem mem_trimLeft_of_neg {c : Char} {s : List Char}
    (hc : goIsSpace c = false) (h : c ∈ s) : c ∈ trimLeft s := by
  rw [← List.takeWhile_append_dropWhile goIsSpace s, List.mem_append] at h
  rcases h with h | h
  · exact absurd (List.mem_takeWhile_imp h) (by simp [hc])
  · exact h

theorem mem_trimRight_of_neg {c : Char} {s : List Char}
    (hc : goIsSpace c = false) (h : c ∈ s) : c ∈ trimRight s := by
  unfold trimRight
  rw [List.mem_reverse]
  exact mem_trimLeft_of_neg hc (List.mem_reverse.mpr h)

theorem mem_trimSpace_of_neg {c : Char} {s : List Char}
    (hc : goIsSpace c = false) (h : c ∈ s) : c ∈ trimSpace s :=
  mem_trimRight_of_neg hc (mem_trimLeft_of_neg hc h)

theorem trimSpace_eq_nil_iff {s : List Char} :
    trimSpace s = [] ↔ ∀ c ∈ s, goIsSpace c = true := by
  constructor
  · intro h c hc
    by_contra hq
    have hc' : goIsSpace c = false := by
      cases hval : goIsSpace c
      · rfl
      · exact absurd hval hq
    have := mem_trimSpace_of_neg hc' hc
    rw [h] at this
    exact absurd this (List.not_mem_nil c)
  · intro h
    have h1 : trimLeft s = [] := List.dropWhile_eq_nil_iff.mpr (by simpa using h)
    unfold trimSpace
    rw [h1]
    rfl

/-! Lemmas about `cut`. -/

theorem cut_eq_none_iff {sep : Char} {s : List Char} :
    cut sep s = none ↔ sep ∉ s := by
  induction s with
  | nil => simp [cut]
  | cons c rest ih =>
    by_cases h : c = sep
    · subst h
      simp [cut]
    · simp [cut, h, Option.map_eq_none', ih, Ne.symm h]

theorem cut_eq_some {sep : Char} :
    ∀ {s a b : List Char}, cut sep s = some (a, b) → s = a ++ sep :: b ∧ sep ∉ a := by
  intro s
  induction s with
  | nil => intro a b h; simp [cut] at h
  | cons c rest ih =>
    intro a b h
    by_cases hc : c = sep
    · subst hc
      rw [cut, if_pos rfl] at h
      cases h
      simp
    · rw [cut, if_neg hc] at h
      rw [Option.map_eq_some'] at h
      obtain ⟨⟨a0, b0⟩, hq, heq⟩ := h
      cases heq
      obtain ⟨hrest, hmem⟩ := ih hq
      constructor
      · rw [hrest]; rfl
      · simp only [List.mem_cons]
        rintro (h | h)
        · exact hc h.symm
        · exact hmem h

theorem cut_append {sep : Char} {a : List Char} (b : List Char)
    (ha : sep ∉ a) : cut sep (a ++ sep :: b) = some (a, b) := by
  induction a with
  | nil => simp [cut]
  | cons c a ih =>
    have hc : ¬c = sep := fun h => ha (by simp [h])
    have ha' : sep ∉ a := fun h => ha (List.mem_cons_of_mem c h)
    simp [cut, hc, ih ha']

/-! Invariants of the accumulation map and the read loop. -/

theorem bump_keys (m : List (List Char × Nat)) (k : List Char) :
    (bump m k).map Prod.fst =
      if k ∈ m.map Prod.fst then m.map Prod.fst else m.map Prod.fst ++ [k] := by
  induction m with
  | nil => simp [bump]
  | cons q rest ih =>
    obtain ⟨k', v⟩ := q
    by_cases h : k' = k
    · subst h
      simp [bump]
    · have h' : ¬k = k' := fun hh => h hh.symm
      simp only [bump, if_neg h, List.map_cons, List.mem_cons, h', false_or]
      rw [ih]
      by_cases hm : k ∈ rest.map Prod.fst
      · simp [hm]
      · simp [hm]

theorem bump_nodup {m : List (List Char × Nat)} {k : List Char}
    (h : (m.map Prod.fst).Nodup) : ((bump m k).map Prod.fst).Nodup := by
  rw [bump_keys]
  by_cases hm : k ∈ m.map Prod.fst
  · rwa [if_pos hm]
  · rw [if_neg hm, List.nodup_append]
    refine ⟨h, List.nodup_singleton k, ?_⟩
    intro a ha hak
    rw [List.mem_singleton] at hak
    exact hm (hak ▸ ha)

theorem bump_sum (m : List (List Char × Nat)) (k : List Char) :
    ((bump m k).map Prod.snd).sum = (m.map Prod.snd).sum + 1 := by
  induction m with
  | nil => simp [bump]
  | cons q rest ih =>
    obtain ⟨k', v⟩ := q
    by_cases h : k' = k
    · subst h
      rw [bump, if_pos rfl]
      simp only [List.map_cons, List.sum_cons]
      omega
    · rw [bump, if_neg h]
      simp only [List.map_cons, List.sum_cons, ih]
      omega

theorem importLoop_ok_shape {expected : Nat} {rows : List (List (List Char))} :
    ∀ {m m'}, importLoop expected m rows = .ok m' →
      ∀ r ∈ rows, r.length = expected ∧ emailColumnIndex < r.length := by
  induction rows with
  | nil =>
    intro m m' _ r hr
    exact absurd hr (List.not_mem_nil r)
  | cons line rest ih =>
    intro m m' h r hr
    rw [importLoop] at h
    by_cases h1 : line.length ≠ expected
    · rw [if_pos h1] at h
      simp at h
    · rw [if_neg h1] at h
      by_cases h2 : line.length ≤ emailColumnIndex
      · rw [if_pos h2] at h
        simp at h
      · rw [if_neg h2] at h
        cases hv : validateEmail (line.getD emailColumnIndex []) with
        | error e =>
          rw [hv] at h
          simp at h
        | ok dom =>
          rw [hv] at h
          rcases List.mem_cons.mp hr with rfl | hr'
          · exact ⟨not_not.mp h1, Nat.lt_of_not_le h2⟩
          · exact ih h r hr'

theorem importLoop_ok_nodup {expected : Nat} {rows : List (List (List Char))} :
    ∀ {m m'}, importLoop expected m rows = .ok m' →
      (m.map Prod.fst).Nodup → (m'.map Prod.fst).Nodup := by
  induction rows with
  | nil =>
    intro m m' h hn
    rw [importLoop] at h
    cases h
    exact hn
  | cons line rest ih =>
    intro m m' h hn
    rw [importLoop] at h
    by_cases h1 : line.length ≠ expected
    · rw [if_pos h1] at h
      simp at h
    · rw [if_neg h1] at h
      by_cases h2 : line.length ≤ emailColumnIndex
      · rw [if_pos h2] at h
        simp at h
      · rw [if_neg h2] at h
        cases hv : validateEmail (line.getD emailColumnIndex []) with
        | error e =>
          rw [hv] at h
          simp at h
        | ok dom =>
          rw [hv] at h
          exact ih h (bump_nodup hn)

theorem importLoop_ok_sum {expected : Nat} {rows : List (List (List Char))} :
    ∀ {m m'}, importLoop expected m rows = .ok m' →
      (m'.map Prod.snd).sum = (m.map Prod.snd).sum + rows.length := by
  induction rows with
  | nil =>
    intro m m' h
    rw [importLoop] at h
    cases h
    simp
  | cons line rest ih =>
    intro m m' h
    rw [importLoop] at h
    by_cases h1 : line.length ≠ expected
    · rw [if_pos h1] at h
      simp at h
    · rw [if_neg h1] at h
      by_cases h2 : line.length ≤ emailColumnIndex
      · rw [if_pos h2] at h
        simp at h
      · rw [if_neg h2] at h
        cases hv : validateEmail (line.getD emailColumnIndex []) with
        | error e =>
          rw [hv] at h
          simp at h
        | ok dom =>
          rw [hv] at h
          rw [ih h, bump_sum]
          simp only [List.length_cons]
          omega

/-! Lemmas about the finalization (sorting) step. -/

theorem finalizeEntries_perm (entries : List (List Char × Nat)) :
    List.Perm (finalizeEntries entries)
      (entries.map (fun q => { Domain := q.1, CustomerQuantity := q.2 })) :=
  List.perm_insertionSort domLe _

theorem finalizeEntries_sorted (entries : List (List Char × Nat)) :
    List.Sorted domLe (finalizeEntries entries) :=
  List.sorted_insertionSort domLe _

theorem finalize_domains_perm (entries : List (List Char × Nat)) :
    List.Perm ((finalizeEntries entries).map DomainData.Domain)
      (entries.map Prod.fst) := by
  have h1 := (finalizeEntries_perm entries).map DomainData.Domain
  simpa [List.map_map, Function.comp] using h1

theorem finalize_nodup {entries : List (List Char × Nat)}
    (h : (entries.map Prod.fst).Nodup) :
    ((finalizeEntries entries).map DomainData.Domain).Nodup :=
  ((finalize_domains_perm entries).nodup_iff).mpr h

theorem sorted_strict {l : List DomainData} (hs : List.Sorted domLe l)
    (hn : (l.map DomainData.Domain).Nodup) : List.Pairwise domLt l := by
  have hne : List.Pairwise (fun a b : DomainData => a.Domain ≠ b.Domain) l :=
    List.pairwise_map.mp hn
  have hand := List.Pairwise.and hs hne
  exact hand.imp (fun hab => lt_of_le_of_ne hab.1 hab.2)

theorem finalize_eq_of_perm {e1 e2 : List (List Char × Nat)}
    (h : List.Perm e1 e2) (hn : (e1.map Prod.fst).Nodup) :
    finalizeEntries e1 = finalizeEntries e2 := by
  have hn2 : (e2.map Prod.fst).Nodup := ((h.map Prod.fst).nodup_iff).mp hn
  have hperm : List.Perm (finalizeEntries e1) (finalizeEntries e2) :=
    (finalizeEntries_perm e1).trans
      ((h.map _).trans (finalizeEntries_perm e2).symm)
  exact List.eq_of_perm_of_sorted (r := domLt) hperm
    (sorted_strict (finalizeEntries_sorted e1) (finalize_nodup hn))
    (sorted_strict (finalizeEntries_sorted e2) (finalize_nodup hn2))

/-! Sample records used by witnesses and counterexamples. -/

/-- The standard five-column header row. -/
def hdr5 : List (List Char) :=
  ["first_name".toList, "last_name".toList, "email".toList, "gender".toList,
    "ip_address".toList]

/-- A two-column header row. -/
def hdr2 : List (List Char) := ["first_name".toList, "last_name".toList]

/-- A valid five-field data row with email `jane@example.com`. -/
def rowJane : List (List Char) :=
  ["Jane".toList, "Roe".toList, "jane@example.com".toList, "F".toList,
    "1.1.1.1".toList]

/-- A valid five-field data row with email `bob@example.com`. -/
def rowBob : List (List Char) :=
  ["Bob".toList, "Lee".toList, "bob@example.com".toList, "M".toList,
    "2.2.2.2".toList]

/-- A valid five-field data row with email `ann@acme.io`. -/
def rowAnn : List (List Char) :=
  ["Ann".toList, "Fox".toList, "ann@acme.io".toList, "F".toList,
    "3.3.3.3".toList]

/-- The two-field row `John,Doe` from the spec's malformed-row scenario. -/
def rowShort : List (List Char) := ["John".toList, "Doe".toList]

/-! Claim theorems. -/

/-- C3 (counterexample): a three-row valid file whose middle row is
replaced by the two-field `John,Doe` does abort, but with the CSV
reader's field-count-mismatch error (Go's `ErrFieldCount`, message
"wrong number of fields"), not with the `InsufficientColumns` kind whose
message reports expected-minimum versus actual counts. -/
theorem importShortRecord_counterexample :
    ImportDomainData (some [hdr5, rowJane, rowShort, rowAnn]) =
      (none, some (.fieldCountMismatch 5 2)) ∧
    (ImportError.fieldCountMismatch 5 2).isInsufficientColumns = false := by
  constructor
  · decide
  · decide

/-- C3 (amended): a source containing a data record with at most
`emailColumnIndex` fields always fails with no aggregate data; when that
record is the first data record, the error is `InsufficientColumns`
(reporting expected minimum `emailColumnIndex + 1` versus the actual
count) exactly when its field count equals the header's, and the CSV
reader's field-count mismatch otherwise. -/
theorem importShortRecordFails (hdr : List (List Char))
    (rows : List (List (List Char)))
    (hshort : ∃ r ∈ rows, r.length ≤ emailColumnIndex) :
    (ImportDomainData (some (hdr :: rows))).1 = none ∧
    (∃ e, (ImportDomainData (some (hdr :: rows))).2 = some e) ∧
    (∀ r rest, rows = r :: rest → r.length ≤ emailColumnIndex →
      (r.length = hdr.length →
        (ImportDomainData (some (hdr :: rows))).2 =
          some (.insufficientColumns (emailColumnIndex + 1) r.length)) ∧
      (r.length ≠ hdr.length →
        (ImportDomainData (some (hdr :: rows))).2 =
          some (.fieldCountMismatch hdr.length r.length))) := by
  obtain ⟨r0, hr0, hlen0⟩ := hshort
  simp only [ImportDomainData, ImportDomainDataIter]
  cases hm : importLoop hdr.length [] rows with
  | ok m =>
    exfalso
    obtain ⟨_, hgt⟩ := importLoop_ok_shape hm r0 hr0
    omega
  | error e =>
    refine ⟨rfl, ⟨e, rfl⟩, ?_⟩
    intro r rest hrows hle
    subst hrows
    constructor
    · intro heq
      have h1 : ¬(r.length ≠ hdr.length) := by omega
      rw [importLoop, if_neg h1, if_pos hle] at hm
      injection hm with hme
      rw [← hme]
    · intro hne
      rw [importLoop, if_pos hne] at hm
      injection hm with hme
      rw [← hme]

/-- C3 (witness): a two-column header followed by a matching two-field
row fails with `InsufficientColumns` reporting 3 expected versus 2. -/
theorem importShortRecordFails_witness :
    (ImportDomainData (some [hdr2, rowShort])).2 =
      some (.insufficientColumns 3 2) := by
  have h := importShortRecordFails hdr2 [rowShort]
    ⟨rowShort, by simp, by decide⟩
  exact (h.2.2 rowShort [] rfl (by decide)).1 (by decide)

/-- C6: whenever `ImportDomainData` reports an error, the data component
of the Go multi-value return is nil (`none`): no partial aggregate is
ever returned alongside an error. -/
theorem importAllOrNothing (src : Option (List (List (List Char))))
    (e : ImportError) (h : (ImportDomainData src).2 = some e) :
    (ImportDomainData src).1 = none := by
  match src with
  | none => rfl
  | some [] => rfl
  | some (header :: rows) =>
    simp only [ImportDomainData, ImportDomainDataIter] at h ⊢
    cases hm : importLoop header.length [] rows with
    | error e' => simp [hm]
    | ok m =>
      rw [hm] at h
      simp at h

/-- C6 (witness): the unavailable-source failure returns an error and a
nil data component. -/
theorem importAllOrNothing_witness :
    (ImportDomainData none).2 = some .sourceUnavailable ∧
      (ImportDomainData none).1 = none :=
  ⟨rfl, importAllOrNothing none .sourceUnavailable rfl⟩

/-- C7 (counterexample): two sources with identical data rows whose
headers differ only in content do not always produce the same outcome:
with a five-field header the import of one valid five-field row
succeeds, while with a two-field header the same row fails with the CSV
reader's field-count mismatch, because the header's field count fixes
the expected count for all later records. -/
theorem importHeaderChange_counterexample :
    hdr5 ≠ hdr2 ∧
    ImportDomainData (some [hdr5, rowJane]) =
      (some [{ Domain := "example.com".toList, CustomerQuantity := 1 }], none) ∧
    ImportDomainData (some [hdr2, rowJane]) =
      (none, some (.fieldCountMismatch 2 5)) := by
  refine ⟨by decide, by decide, by decide⟩

/-- C7 (amended): the header's content is never inspected beyond its
field count: two sources that differ only in their header record produce
identical outcomes whenever the two headers have the same number of
fields. -/
theorem importHeaderFieldCountOnly (h1 h2 : List (List Char))
    (rows : List (List (List Char))) (hlen : h1.length = h2.length) :
    ImportDomainData (some (h1 :: rows)) = ImportDomainData (some (h2 :: rows)) := by
  simp only [ImportDomainData, ImportDomainDataIter]
  rw [hlen]

/-- C7 (witness): replacing the standard header by another five-field
header leaves the outcome unchanged. -/
theorem importHeaderFieldCountOnly_witness :
    ImportDomainData (some [hdr5, rowJane]) =
      ImportDomainData (some [["a".toList, "b".toList, "c".toList,
        "d".toList, "e".toList], rowJane]) :=
  importHeaderFieldCountOnly hdr5
    ["a".toList, "b".toList, "c".toList, "d".toList, "e".toList]
    [rowJane] (by decide)

/-- C9: a source consisting of a readable header record and no data
records succeeds and returns a non-nil empty slice, not an error. -/
theorem importHeaderOnlyEmptyResult (hdr : List (List Char)) :
    ImportDomainData (some [hdr]) = (some [], none) := rfl

/-- C9 (witness): the standard header alone gives the empty aggregate. -/
theorem importHeaderOnlyEmptyResult_witness :
    ImportDomainData (some [hdr5]) = (some [], none) :=
  importHeaderOnlyEmptyResult hdr5

/-- C10: `ExportData` called with a nil data slice returns an error and
performs no file-system effect at all: the output file is neither
created nor truncated, whether or not `os.Create` would succeed. -/
theorem exportNilNoEffect (createOk : Bool) :
    ExportData createOk none = ([], some .nilData) := rfl

/-- C10 (witness): with a creatable output file and nil data, no effect
happens and the nil-data error is returned. -/
theorem exportNilNoEffect_witness :
    ExportData true none = ([], some .nilData) :=
  exportNilNoEffect true

/-- C4: every successful result of `ImportDomainData` is sorted in
ascending lexicographic order of the `Domain` field and no two of its
entries share a `Domain`. -/
theorem importResultSortedNodup (src : Option (List (List (List Char))))
    (result : List DomainData) (h : (ImportDomainData src).1 = some result) :
    List.Sorted domLe result ∧
      List.Pairwise (fun a b : DomainData => a.Domain ≠ b.Domain) result := by
  match src with
  | none => simp [ImportDomainData, ImportDomainDataIter] at h
  | some [] => simp [ImportDomainData, ImportDomainDataIter] at h
  | some (header :: rows) =>
    simp only [ImportDomainData, ImportDomainDataIter] at h
    cases hm : importLoop header.length [] rows with
    | error e =>
      rw [hm] at h
      simp at h
    | ok m =>
      rw [hm] at h
      simp only [id] at h
      have hres : finalizeEntries m = result := by
        simpa using h
      have hn : (m.map Prod.fst).Nodup := importLoop_ok_nodup hm (by simp)
      rw [← hres]
      exact ⟨finalizeEntries_sorted m, List.pairwise_map.mp (finalize_nodup hn)⟩

/-- C4 (witness): the spec's three-row scenario yields the sorted,
duplicate-free aggregate `[(acme.io, 1), (example.com, 2)]`. -/
theorem importResultSortedNodup_witness :
    List.Sorted domLe
        [{ Domain := "acme.io".toList, CustomerQuantity := 1 },
          { Domain := "example.com".toList, CustomerQuantity := 2 }] ∧
      List.Pairwise (fun a b : DomainData => a.Domain ≠ b.Domain)
        [{ Domain := "acme.io".toList, CustomerQuantity := 1 },
          { Domain := "example.com".toList, CustomerQuantity := 2 }] :=
  importResultSortedNodup (some [hdr5, rowJane, rowBob, rowAnn]) _ (by decide)

/-- C5: for a source on which `ImportDomainData` succeeds (header plus
data rows that all parse and validate), the sum of the
`CustomerQuantity` counts over the result equals the number of data
rows, the header excluded. -/
theorem importResultTotalCount (hdr : List (List Char))
    (rows : List (List (List Char))) (result : List DomainData)
    (h : (ImportDomainData (some (hdr :: rows))).1 = some result) :
    (result.map DomainData.CustomerQuantity).sum = rows.length := by
  simp only [ImportDomainData, ImportDomainDataIter] at h
  cases hm : importLoop hdr.length [] rows with
  | error e =>
    rw [hm] at h
    simp at h
  | ok m =>
    rw [hm] at h
    simp only [id] at h
    have hres : finalizeEntries m = result := by
      simpa using h
    have hsum : (m.map Prod.snd).sum = rows.length := by
      simpa using importLoop_ok_sum hm
    have hperm :=
      (finalizeEntries_perm m).map DomainData.CustomerQuantity
    have hmm :
        ((m.map (fun q : List Char × Nat =>
            ({ Domain := q.1, CustomerQuantity := q.2 } : DomainData))).map
          DomainData.CustomerQuantity) = m.map Prod.snd := by
      simp [List.map_map, Function.comp]
    rw [← hres]
    calc ((finalizeEntries m).map DomainData.CustomerQuantity).sum
        = (m.map Prod.snd).sum := by rw [hperm.sum_eq, hmm]
      _ = rows.length := hsum

/-- C5 (witness): the three-row scenario has three data rows and counts
summing to 1 + 2 = 3. -/
theorem importResultTotalCount_witness :
    (([{ Domain := "acme.io".toList, CustomerQuantity := 1 },
        { Domain := "example.com".toList, CustomerQuantity := 2 }].map
      DomainData.CustomerQuantity).sum) = [rowJane, rowBob, rowAnn].length :=
  importResultTotalCount hdr5 [rowJane, rowBob, rowAnn] _ (by decide)

/-- C8: the pipeline is deterministic: `validateEmail` is a pure
function of its argument, and the result of `ImportDomainData` does not
depend on the order in which the `for k, v := range data` statement
enumerates the unordered accumulation map — any two enumeration orders
that permute the accumulated entries give identical outcomes (the
logging statements return nothing that flows into the result, so a
progress sink cannot change it either). -/
theorem importDeterministic
    (iter1 iter2 : List (List Char × Nat) → List (List Char × Nat))
    (hp1 : ∀ m, List.Perm (iter1 m) m) (hp2 : ∀ m, List.Perm (iter2 m) m) :
    (∀ src, ImportDomainDataIter iter1 src = ImportDomainDataIter iter2 src) ∧
    (∀ x y : List Char, x = y → validateEmail x = validateEmail y) := by
  constructor
  · intro src
    match src with
    | none => rfl
    | some [] => rfl
    | some (header :: rows) =>
      simp only [ImportDomainDataIter]
      cases hm : importLoop header.length [] rows with
      | error e => rfl
      | ok m =>
        have hn : (m.map Prod.fst).Nodup := importLoop_ok_nodup hm (by simp)
        have hn1 : ((iter1 m).map Prod.fst).Nodup :=
          (((hp1 m).map Prod.fst).nodup_iff).mpr hn
        have hpp : List.Perm (iter1 m) (iter2 m) := (hp1 m).trans (hp2 m).symm
        exact congrArg
          (fun l => ((some l : Option (List DomainData)),
            (none : Option ImportError)))
          (finalize_eq_of_perm hpp hn1)
  · intro x y h
    rw [h]

/-- C8 (witness): the identity enumeration order and the reversed
enumeration order give the same result on the three-row scenario. -/
theorem importDeterministic_witness :
    ImportDomainDataIter id (some [hdr5, rowJane, rowBob, rowAnn]) =
      ImportDomainDataIter List.reverse (some [hdr5, rowJane, rowBob, rowAnn]) :=
  (importDeterministic id List.reverse (fun m => List.Perm.refl m)
    (fun m => List.reverse_perm m)).1 _

/-- C1: for an input of the form `local@domain` — split at the first
separator, so the local part contains no `@` — with non-empty trimmed
whole string, non-empty trimmed local part, non-empty trimmed domain
part and no `@` in the trimmed domain part, `validateEmail` returns the
trimmed domain part unchanged (no case folding or any other
normalization) and no error. -/
theorem validateEmail_valid (loc dom : List Char)
    (hloc : '@' ∉ loc)
    (hne : trimSpace (loc ++ '@' :: dom) ≠ [])
    (hl : trimSpace loc ≠ [])
    (hd : trimSpace dom ≠ [])
    (hdd : '@' ∉ trimSpace dom) :
    validateEmail (loc ++ '@' :: dom) = .ok (trimSpace dom) := by
  have hsplit : trimSpace (loc ++ '@' :: dom) = trimLeft loc ++ '@' :: trimRight dom :=
    trimSpace_append_cons loc dom atSignNotSpace
  have hloc' : '@' ∉ trimLeft loc := fun h => hloc (mem_of_mem_trimLeft h)
  have hcut : cut '@' (trimSpace (loc ++ '@' :: dom)) =
      some (trimLeft loc, trimRight dom) := by
    rw [hsplit]
    exact cut_append (trimRight dom) hloc'
  rw [validateEmail, if_neg hne]
  simp only [hcut]
  rw [trimSpace_trimLeft, trimSpace_trimRight, if_neg hl, if_neg hd,
    if_neg (by simpa using hdd)]

/-- C1 (witness): `user@example.com` validates to domain
`example.com`. -/
theorem validateEmail_valid_witness :
    validateEmail "user@example.com".toList = .ok "example.com".toList := by
  have h := validateEmail_valid "user".toList "example.com".toList
    (by decide) (by decide) (by decide) (by decide) (by decide)
  have h1 : "user".toList ++ '@' :: "example.com".toList =
      "user@example.com".toList := by decide
  have h2 : trimSpace "example.com".toList = "example.com".toList := by decide
  rw [h1, h2] at h
  exact h

/-- C2: `validateEmail` returns an error exactly when the input has zero
or at least two occurrences of `@`, or the trimmed part before the first
`@` or the trimmed part after it is empty; and an input consisting only
of whitespace (the empty input included) fails with the `EmptyInput`
reason. -/
theorem validateEmail_error_characterization (s : List Char) :
    ((∃ e, validateEmail s = .error e) ↔
      (s.count '@' = 0 ∨ 2 ≤ s.count '@' ∨
        ∃ a b, cut '@' s = some (a, b) ∧
          (trimSpace a = [] ∨ trimSpace b = []))) ∧
    ((∀ c ∈ s, goIsSpace c = true) → validateEmail s = .error .emptyInput) := by
  have hempty : (∀ c ∈ s, goIsSpace c = true) →
      validateEmail s = .error .emptyInput := by
    intro hall
    rw [validateEmail, if_pos (trimSpace_eq_nil_iff.mpr hall)]
  refine ⟨?_, hempty⟩
  by_cases hnil : trimSpace s = []
  · have hall := trimSpace_eq_nil_iff.mp hnil
    have hnotmem : '@' ∉ s := by
      intro hmem
      have h1 := hall '@' hmem
      rw [atSignNotSpace] at h1
      cases h1
    have hcount : s.count '@' = 0 := List.count_eq_zero.mpr hnotmem
    exact ⟨fun _ => Or.inl hcount, fun _ => ⟨.emptyInput, hempty hall⟩⟩
  · cases hcutS : cut '@' s with
    | none =>
      have hnmem : '@' ∉ s := cut_eq_none_iff.mp hcutS
      have hnmemT : '@' ∉ trimSpace s := fun h => hnmem (mem_of_mem_trimSpace h)
      have hval : validateEmail s = .error .missingSeparator := by
        rw [validateEmail, if_neg hnil, cut_eq_none_iff.mpr hnmemT]
      have hcount : s.count '@' = 0 := List.count_eq_zero.mpr hnmem
      exact ⟨fun _ => Or.inl hcount, fun _ => ⟨_, hval⟩⟩
    | some ab =>
      obtain ⟨a, b⟩ := ab
      obtain ⟨hs_eq, hna⟩ := cut_eq_some hcutS
      subst hs_eq
      have hsplit : trimSpace (a ++ '@' :: b) = trimLeft a ++ '@' :: trimRight b :=
        trimSpace_append_cons a b atSignNotSpace
      have hna' : '@' ∉ trimLeft a := fun h => hna (mem_of_mem_trimLeft h)
      have hcutT : cut '@' (trimSpace (a ++ '@' :: b)) =
          some (trimLeft a, trimRight b) := by
        rw [hsplit]
        exact cut_append (trimRight b) hna'
      have hca : a.count '@' = 0 := List.count_eq_zero.mpr hna
      have hred : validateEmail (a ++ '@' :: b) =
          (if trimSpace a = [] then .error .emptyLocalPart
           else if trimSpace b = [] then .error .emptyDomain
           else if (trimSpace b).contains '@' then .error .multipleSeparators
           else .ok (trimSpace b)) := by
        rw [validateEmail, if_neg hnil]
        simp only [hcutT]
        rw [trimSpace_trimLeft, trimSpace_trimRight]
      by_cases hA : trimSpace a = []
      · refine ⟨fun _ => Or.inr (Or.inr ⟨a, b, rfl, Or.inl hA⟩), fun _ => ?_⟩
        exact ⟨_, by rw [hred, if_pos hA]⟩
      · by_cases hB : trimSpace b = []
        · refine ⟨fun _ => Or.inr (Or.inr ⟨a, b, rfl, Or.inr hB⟩), fun _ => ?_⟩
          exact ⟨_, by rw [hred, if_neg hA, if_pos hB]⟩
        · by_cases hC : ((trimSpace b).contains '@') = true
          · have hmemb : '@' ∈ b := by
              have h1 : '@' ∈ trimSpace b := by
                rw [List.contains_eq_any_beq] at hC
                simp only [List.any_eq_true, beq_iff_eq] at hC
                obtain ⟨c, hc, rfl⟩ := hC
                exact hc
              exact mem_of_mem_trimSpace h1
            have hcb : b.count '@' ≠ 0 := fun h0 =>
              (List.count_eq_zero.mp h0) hmemb
            have hcount2 : 2 ≤ (a ++ '@' :: b).count '@' := by
              simp only [List.count_append, List.count_cons_self]
              omega
            refine ⟨fun _ => Or.inr (Or.inl hcount2), fun _ => ?_⟩
            exact ⟨_, by rw [hred, if_neg hA, if_neg hB, if_pos hC]⟩
          · have hval : validateEmail (a ++ '@' :: b) = .ok (trimSpace b) := by
              rw [hred, if_neg hA, if_neg hB, if_neg hC]
            constructor
            · rintro ⟨e, he⟩
              rw [hval] at he
              exact absurd he (by simp)
            · intro hrhs
              exfalso
              have hnb : '@' ∉ b := by
                intro hm
                apply hC
                have h1 : '@' ∈ trimSpace b :=
                  mem_trimSpace_of_neg atSignNotSpace hm
                rw [List.contains_eq_any_beq]
                simp only [List.any_eq_true, beq_iff_eq]
                exact ⟨'@', h1, rfl⟩
              have hcb : b.count '@' = 0 := List.count_eq_zero.mpr hnb
              have hcount1 : (a ++ '@' :: b).count '@' = 1 := by
                simp [List.count_append, List.count_cons_self, hca, hcb]
              rcases hrhs with h0 | h2 | ⟨a', b', hcut', hor⟩
              · omega
              · omega
              · injection hcut' with hpair
                injection hpair with h1 h2
                subst h1
                subst h2
                rcases hor with h | h
                · exact hA h
                · exact hB h

/-- C2 (witness): a whitespace-only input fails with `EmptyInput`, and
an input with two separators fails. -/
theorem validateEmail_error_characterization_witness :
    validateEmail "  ".toList = .error .emptyInput ∧
      (∃ e, validateEmail "a@b@c".toList = .error e) :=
  ⟨(validateEmail_error_characterization "  ".toList).2 (by decide),
    ((validateEmail_error_characterization "a@b@c".toList).1).mpr
      (Or.inr (Or.inl (by decide)))⟩

end CustomerImporter
